import Mathlib

/-!
Verification of the trailer / cross-reference parsing core of a small PDF
reader (read.go).  The file contents are modelled as a `List Char` of bytes
(all inputs of interest are ASCII, where Go bytes and Lean characters agree).
Go's `int` and `int64` are modelled as `Int`; `strconv.ParseInt`/`Atoi`
include the 64-bit range check, and the one machine-arithmetic operation that
can overflow on adversarial input (`int64(offset + pos)`) goes through an
explicit two's-complement wrap.  Fallible Go functions return a `GoResult`,
whose `panics` constructor records a Go runtime panic (index out of range).
-/

/-! ## Byte / string primitives mirrored from the Go standard library -/

/-- Drop a single trailing carriage return, as bufio's `dropCR` does. -/
def dropCR (cs : List Char) : List Char :=
  if cs.getLast? = some '\r' then cs.dropLast else cs

/-- Accumulator-based splitting of a byte stream into lines, mirroring
`bufio.ScanLines`: tokens are terminated by a newline (with one trailing
carriage return stripped), and a final unterminated token is still emitted. -/
def scanLinesAux : List Char → List Char → List (List Char)
  | acc, [] => if acc = [] then [] else [dropCR acc.reverse]
  | acc, c :: cs =>
    if c = '\n' then dropCR acc.reverse :: scanLinesAux [] cs
    else scanLinesAux (c :: acc) cs

/-- The list of lines a `bufio.Scanner` with `ScanLines` yields on a stream. -/
def scanLines (cs : List Char) : List (List Char) :=
  scanLinesAux [] cs

/-- Split at the first occurrence of a separator character, returning the
text before and after it, or `none` when the separator does not occur. -/
def splitAtFirst (sep : Char) : List Char → Option (List Char × List Char)
  | [] => none
  | c :: cs =>
    if c = sep then some ([], cs)
    else
      match splitAtFirst sep cs with
      | none => none
      | some (pre, post) => some (c :: pre, post)

/-- The split used on every xref table line, `strings.SplitN(line, " ", 3)`:
at most 3 pieces cut at the first two spaces, the last piece holding the
unsplit remainder. -/
def splitN3 (l : List Char) : List (List Char) :=
  match splitAtFirst ' ' l with
  | none => [l]
  | some (a, r1) =>
    match splitAtFirst ' ' r1 with
    | none => [a, r1]
    | some (b, r2) => [a, b, r2]

/-- Index of the first occurrence of `pat` as a contiguous sublist,
mirroring `bytes.Index` (which returns -1, modelled here as `none`). -/
def indexOfSub (pat : List Char) : List Char → Option Nat
  | [] => if pat.isPrefixOf ([] : List Char) then some 0 else none
  | c :: t =>
    if pat.isPrefixOf (c :: t) then some 0
    else
      match indexOfSub pat t with
      | none => none
      | some i => some (i + 1)

/-- Numeric value of a list of decimal digit characters, most significant
first, as accumulated by `strconv.ParseInt`. -/
def digitsToNat (ds : List Char) : Nat :=
  ds.foldl (fun a c => a * 10 + (c.toNat - 48)) 0

/-- Consume the optional single leading sign accepted by
`strconv.ParseInt`, returning whether the number is negated and the
remaining characters, which must all be digits. -/
def parseSign (cs : List Char) : Bool × List Char :=
  match cs with
  | [] => (false, [])
  | c :: rest =>
    if c = '+' then (false, rest)
    else if c = '-' then (true, rest)
    else (false, c :: rest)

/-- The signed value of a digit string under an optional negation. -/
def signedVal (neg : Bool) (ds : List Char) : Int :=
  if neg then -(digitsToNat ds : Int) else (digitsToNat ds : Int)

/-- Go's `strconv.ParseInt(s, 10, 64)` (and `strconv.Atoi` on a 64-bit
platform): an optional single sign, then one or more decimal digits, with
the result required to fit in a signed 64-bit integer; anything else is an
error, modelled as `none`. -/
def parseIntGo (cs : List Char) : Option Int :=
  if (parseSign cs).2 ≠ [] ∧ (parseSign cs).2.all Char.isDigit then
    if -(2 ^ 63) ≤ signedVal (parseSign cs).1 (parseSign cs).2 ∧
        signedVal (parseSign cs).1 (parseSign cs).2 ≤ 2 ^ 63 - 1 then
      some (signedVal (parseSign cs).1 (parseSign cs).2)
    else none
  else none

/-- ASCII lower-casing of one character. -/
def asciiLower (c : Char) : Char :=
  if 'A' ≤ c ∧ c ≤ 'Z' then Char.ofNat (c.toNat + 32) else c

/-- Case-insensitive equality, modelling `strings.EqualFold` on the ASCII
range.  The program only compares stream lines against the ASCII literal
"endobj", whose letters have no case foldings outside ASCII, so on every
comparison the program performs this agrees with Go's Unicode simple fold. -/
def foldEq (a b : List Char) : Bool :=
  a.map asciiLower == b.map asciiLower

/-- Join a list of lines into a byte stream, terminating every line with a
single newline: the inverse of `scanLines` on clean lines, and also the
shape of the bytes written by repeated `WriteString(l + "\n")`. -/
def joinNL (ls : List (List Char)) : List Char :=
  (ls.map (fun l => l ++ ['\n'])).flatten

/-- Two's-complement wraparound of an unbounded integer into int64 range,
used where Go's 64-bit addition can overflow. -/
def int64wrap (n : Int) : Int :=
  (n + 2 ^ 63) % 2 ^ 64 - 2 ^ 63

/-! ## Keyword byte strings appearing in read.go -/

def kwXref : List Char := "xref".data
def kwStartxref : List Char := "startxref".data
def kwTrailer : List Char := "trailer".data
def kwSizeSp : List Char := "/Size ".data
def kwObj : List Char := "obj".data
def kwEndobj : List Char := "endobj".data

/-! ## Data model (read.go lines 17-35) -/

/-- One row of the cross-reference table (struct `XrefEntry`). -/
structure XrefEntry where
  byteOffset : Int
  number : Int
  generation : Int
  inUse : Bool
deriving Repr, DecidableEq

/-- The parsed trailer (struct `Trailer`); the held `io.ReaderAt` is passed
separately as the file contents wherever it is used. -/
structure Trailer where
  startXref : Int
  size : Int
  raw : List Char
deriving Repr, DecidableEq

/-- The distinct error values read.go can produce, each carrying the Go
error message via `goMessage`. -/
inductive PdfError where
  | negOffset
  | parseStartXref
  | parseSize
  | shouldBeXref
  | subsecOffset
  | subsecCount
  | xrefEntryOffset
  | xrefEntryGeneration
  | notRefObject
  | noEntryFound
deriving Repr, DecidableEq

/-- The human-readable Go error message attached to each error value. -/
def goMessage : PdfError → String
  | PdfError.negOffset => "readat: negative offset"
  | PdfError.parseStartXref => "unable to parse startxref"
  | PdfError.parseSize => "unable to parse /Size"
  | PdfError.shouldBeXref => "should be xref"
  | PdfError.subsecOffset => "unable to read xref subsection offset"
  | PdfError.subsecCount => "unable to read xref subsection count"
  | PdfError.xrefEntryOffset => "unable to read xref entry offset"
  | PdfError.xrefEntryGeneration => "unable to read xref entry generation"
  | PdfError.notRefObject => "should start with a reference object"
  | PdfError.noEntryFound => "no entry found"

/-- Outcome of a fallible Go function: a value, an error, or a runtime
panic (read.go can index past the end of a slice). -/
inductive GoResult (α : Type) where
  | ok (val : α)
  | err (e : PdfError)
  | panics
deriving Repr, DecidableEq

/-! ## The embedded program -/

/-- The line stream a scanner over `NewAtReader(file, off)` yields: bytes
from `off` onward.  A negative offset makes the underlying `ReadAt` fail, so
the scanner yields no line at all (`Scan` returns false immediately). -/
def linesAt (file : List Char) (off : Int) : List (List Char) :=
  if off < 0 then [] else scanLines (file.drop off.toNat)

/-- Translation of `findTrailerInBlock` (read.go lines 260-262). -/
def findTrailerInBlock (b : List Char) : Int :=
  match indexOfSub kwTrailer b with
  | some i => (i : Int)
  | none => -1

/-- The line-scanning loop of `readTrailer` (read.go lines 140-162): on a
line with prefix "startxref" the next line is consumed and parsed as the
offset; on a line containing "/Size " the rest of that line is parsed, a
failure or a zero being fatal. -/
def trailerScan : List (List Char) → Trailer → GoResult Trailer
  | [], tr => GoResult.ok tr
  | l :: rest, tr =>
    if kwStartxref.isPrefixOf l then
      match rest with
      | [] => GoResult.err PdfError.parseStartXref
      | next :: rest2 =>
        match parseIntGo next with
        | none => GoResult.err PdfError.parseStartXref
        | some v => trailerScan rest2 { tr with startXref := v }
    else
      match indexOfSub kwSizeSp l with
      | none => trailerScan rest tr
      | some n =>
        match parseIntGo (l.drop (n + 6)) with
        | none => GoResult.err PdfError.parseSize
        | some v =>
          if v = 0 then GoResult.err PdfError.parseSize
          else trailerScan rest { tr with size := v }

/-- Translation of `readTrailer` (read.go lines 125-169).  A 1024-byte
buffer is filled by `ReadAt(buf, size-1024)`: for an `os.File` a negative
offset is an immediate error (not `io.EOF`, hence returned), while a short
read at the end of the file reports `io.EOF`, which the code tolerates,
leaving the rest of the buffer zero. -/
def readTrailer (file : List Char) (size : Int) : GoResult Trailer :=
  if size - 1024 < 0 then GoResult.err PdfError.negOffset
  else
    let chunk := (file.drop (size - 1024).toNat).take 1024
    let buf := chunk ++ List.replicate (1024 - chunk.length) (Char.ofNat 0)
    let p := findTrailerInBlock buf
    let buf2 := if p > 0 then buf.drop p.toNat else buf
    trailerScan (scanLines buf2) { startXref := 0, size := 0, raw := buf2 }

/-- Translation of `readXrefEntry` (read.go lines 231-251), on the pieces of
an already-split line.  Go indexes `entry[0]`, `entry[1]`, `entry[2]`
unconditionally, so a missing piece is an index-out-of-range panic. -/
def readXrefEntry (entry : List (List Char)) : GoResult XrefEntry :=
  match entry.get? 0 with
  | none => GoResult.panics
  | some e0 =>
    match parseIntGo e0 with
    | none => GoResult.err PdfError.xrefEntryOffset
    | some off =>
      match entry.get? 1 with
      | none => GoResult.panics
      | some e1 =>
        match parseIntGo e1 with
        | none => GoResult.err PdfError.xrefEntryGeneration
        | some gen =>
          match entry.get? 2 with
          | none => GoResult.panics
          | some e2 =>
            GoResult.ok
              { byteOffset := off, number := 0, generation := gen,
                inUse := (['n'] : List Char).isPrefixOf e2 }

/-- The mutable locals of the `ListXrefEntries` scan loop. -/
structure XrefScanState where
  entries : List XrefEntry
  offset : Int
  pos : Int
  count : Int
  total : Int
deriving Repr, DecidableEq

/-- The initial state of the scan loop: no entries, all counters zero. -/
def initScanState : XrefScanState :=
  { entries := [], offset := 0, pos := 0, count := 0, total := 0 }

/-- The scan loop of `ListXrefEntries` (read.go lines 183-222): stop when
`total` reaches the trailer size; a 2-piece line is a subsection header
resetting `pos`; an extra line past the subsection count is skipped;
otherwise the line is parsed as an entry and numbered `offset + pos`. -/
def xrefLoop (size : Int) : List (List Char) → XrefScanState → GoResult (List XrefEntry)
  | [], st => GoResult.ok st.entries
  | l :: rest, st =>
    if size = st.total then GoResult.ok st.entries
    else
      if (splitN3 l).length = 2 then
        match parseIntGo ((splitN3 l).getD 0 []) with
        | none => GoResult.err PdfError.subsecOffset
        | some o =>
          match parseIntGo ((splitN3 l).getD 1 []) with
          | none => GoResult.err PdfError.subsecCount
          | some c => xrefLoop size rest { st with offset := o, count := c, pos := 0 }
      else
        if st.pos = st.count then xrefLoop size rest st
        else
          match readXrefEntry (splitN3 l) with
          | GoResult.err e => GoResult.err e
          | GoResult.panics => GoResult.panics
          | GoResult.ok xe =>
            xrefLoop size rest
              { st with
                entries := st.entries ++
                  [{ xe with number := int64wrap (st.offset + st.pos) }],
                pos := st.pos + 1, total := st.total + 1 }

/-- Translation of `Trailer.ListXrefEntries` (read.go lines 171-229): the
first line at `startXref` must be exactly "xref", then the scan loop runs. -/
def listXrefEntries (t : Trailer) (file : List Char) : GoResult (List XrefEntry) :=
  match linesAt file t.startXref with
  | [] => GoResult.err PdfError.shouldBeXref
  | l :: rest =>
    if l = kwXref then xrefLoop t.size rest initScanState
    else GoResult.err PdfError.shouldBeXref

/-- The accumulation loop of `readEntry` (read.go lines 97-105): append each
line with a newline, stopping after a line case-insensitively equal to
"endobj"; exhausting the stream just ends the accumulation. -/
def readEntryLoop : List (List Char) → List Char
  | [] => []
  | l :: rest =>
    if foldEq l kwEndobj then l ++ ['\n']
    else l ++ '\n' :: readEntryLoop rest

/-- Translation of `readEntry` (read.go lines 84-112): the first line at the
entry's byte offset must end in "obj" (the empty text of a failed first
`Scan` included), then lines are accumulated through "endobj". -/
def readEntry (ent : XrefEntry) (file : List Char) : GoResult (List Char) :=
  match linesAt file ent.byteOffset with
  | [] => GoResult.err PdfError.notRefObject
  | l :: rest =>
    if kwObj.isSuffixOf l then GoResult.ok (l ++ '\n' :: readEntryLoop rest)
    else GoResult.err PdfError.notRefObject

/-- Translation of `findXrefEntry` (read.go lines 114-123): first entry in
list order matching both the number and the generation. -/
def findXrefEntry (entries : List XrefEntry) (number generation : Int) : GoResult XrefEntry :=
  match entries with
  | [] => GoResult.err PdfError.noEntryFound
  | e :: rest =>
    if e.number = number ∧ e.generation = generation then GoResult.ok e
    else findXrefEntry rest number generation

/-! ## Structured xref tables, following the specification text

A classical xref table is a sequence of subsections, each a header line
`<first_object_number> <count>` followed by `count` entry lines.  The
specification assigns `object_number = first_object_number + position`.
These definitions build such a table as text (to feed the parser) and the
entry list the specification promises. -/

/-- One entry line of a subsection, with the parsed values its fields must
carry (well-formedness ties the strings and values together). -/
structure XrefRow where
  offStr : List Char
  offVal : Int
  genStr : List Char
  genVal : Int
  flag : List Char
deriving Repr, DecidableEq

/-- One subsection: a header (first object number and count, as text and as
values) and its entry rows. -/
structure XrefSubsec where
  firstStr : List Char
  first : Int
  countStr : List Char
  rows : List XrefRow
deriving Repr, DecidableEq

/-- A row is well formed when its offset and generation fields parse to the
recorded values and its type flag stays on one line. -/
abbrev wfRow (r : XrefRow) : Prop :=
  parseIntGo r.offStr = some r.offVal ∧ parseIntGo r.genStr = some r.genVal ∧
    '\n' ∉ r.flag ∧ '\r' ∉ r.flag

/-- A subsection is well formed when its header fields parse to the first
object number and the exact row count, it has at least one row, every row is
well formed, and the assigned object numbers stay within int64 range. -/
abbrev wfSubsec (s : XrefSubsec) : Prop :=
  parseIntGo s.firstStr = some s.first ∧
    parseIntGo s.countStr = some ((s.rows.length : Int)) ∧
    s.rows ≠ [] ∧ (∀ r ∈ s.rows, wfRow r) ∧
    s.first + (s.rows.length : Int) ≤ 2 ^ 63

/-- A table is well formed when all its subsections are. -/
abbrev wfTable (subs : List XrefSubsec) : Prop :=
  ∀ s ∈ subs, wfSubsec s

/-- Total number of entry rows across all subsections. -/
def rowCount (subs : List XrefSubsec) : Nat :=
  (subs.map (fun s => s.rows.length)).sum

/-- The text of one entry line: `<offset> <generation> <flag>`. -/
def renderRow (r : XrefRow) : List Char :=
  r.offStr ++ ' ' :: r.genStr ++ ' ' :: r.flag

/-- The lines of one subsection: its header, then its entry lines. -/
def renderSubsec (s : XrefSubsec) : List (List Char) :=
  (s.firstStr ++ ' ' :: s.countStr) :: s.rows.map renderRow

/-- The lines of the whole table, in subsection order. -/
def renderTable (subs : List XrefSubsec) : List (List Char) :=
  (subs.map renderSubsec).flatten

/-- The byte stream of a classical xref table: the line `xref`, then the
table lines, each newline-terminated. -/
def renderXrefFile (subs : List XrefSubsec) : List Char :=
  joinNL (kwXref :: renderTable subs)

/-- The entries the specification promises for the rows of one subsection
whose header starts numbering at `first`, the next row sitting at
zero-based position `i`: object number `first + position`. -/
def specRows (first : Int) : Int → List XrefRow → List XrefEntry
  | _, [] => []
  | i, r :: rs =>
    { byteOffset := r.offVal, number := first + i, generation := r.genVal,
      inUse := (['n'] : List Char).isPrefixOf r.flag } :: specRows first (i + 1) rs

/-- The entry list the specification promises for a whole table: each
subsection re-anchors numbering at its own first object number. -/
def specTable (subs : List XrefSubsec) : List XrefEntry :=
  (subs.map (fun s => specRows s.first 0 s.rows)).flatten

/-! ## Concrete inputs used by the individual claims -/

/-- The object bytes of the extraction example. -/
def catalogObj : List Char := "5 0 obj\n<< /Type /Catalog >>\nendobj\n".data

/-- A truncated object body: the stream ends before any `endobj`. -/
def truncObjFile : List Char := "5 0 obj\n<< truncated".data

/-- A file much shorter than the 1024-byte tail window. -/
def smallPdf : List Char := "%PDF-1.4\nstartxref\n9\n%%EOF\n".data

/-- A 1024-byte file whose trailer block has a `/Size` but no `startxref`. -/
def fileNoStartxref : List Char :=
  List.replicate 1008 ' ' ++ "trailer\n/Size 5\n".data

/-- A 1024-byte file whose trailer block carries `/Size 37`. -/
def fileSize37 : List Char :=
  List.replicate 1007 ' ' ++ "trailer\n/Size 37\n".data

/-- A 1024-byte file whose trailer block carries `/Size 0`. -/
def fileSize0 : List Char :=
  List.replicate 1008 ' ' ++ "trailer\n/Size 0\n".data

/-- A 1024-byte file whose trailer block carries `/Size abc`. -/
def fileSizeAbc : List Char :=
  List.replicate 1006 ' ' ++ "trailer\n/Size abc\n".data

/-- An xref table holding one line that splits into a single piece whose
text parses as an integer, inside an open subsection. -/
def fileOnePiece : List Char := "xref\n0 1\n123\n".data

/-- A one-entry xref table, used against a trailer whose size is negative. -/
def fileOneEntry : List Char := "xref\n0 1\n0000000017 00000 n\n".data

/-- A three-entry xref table followed by the trailer keyword and dictionary,
the shape of a real classical PDF tail. -/
def fileThenTrailer : List Char :=
  ("xref\n0 3\n0000000009 00000 n\n0000000050 00000 n\n" ++
    "0000000100 00000 n\ntrailer\n<< /Size 3 >>\n").data

/-- The two-subsection example from the specification: `0 1` then `3 2`. -/
def subsTwo : List XrefSubsec :=
  [ { firstStr := "0".data, first := 0, countStr := "1".data,
      rows := [⟨"0000000009".data, 9, "00000".data, 0, "n".data⟩] },
    { firstStr := "3".data, first := 3, countStr := "2".data,
      rows := [⟨"0000000100".data, 100, "00000".data, 0, "n".data⟩,
               ⟨"0000000200".data, 200, "00001".data, 1, "f".data⟩] } ]

/-! ## Lemmas about the string primitives -/

/-- The digit part returned by `parseSign` is either the whole input or the
input behind a leading sign character. -/
lemma parseSign_cases (cs : List Char) :
    (parseSign cs).2 = cs ∨
      ∃ c, (c = '+' ∨ c = '-') ∧ cs = c :: (parseSign cs).2 := by
  match cs with
  | [] => exact Or.inl rfl
  | c :: rest =>
    by_cases h1 : c = '+'
    · exact Or.inr ⟨c, Or.inl h1, by simp [parseSign, h1]⟩
    · by_cases h2 : c = '-'
      · exact Or.inr ⟨c, Or.inr h2, by simp [parseSign, h1, h2]⟩
      · exact Or.inl (by simp [parseSign, h1, h2])

/-- Every character of a string `strconv.ParseInt` accepts is a sign or a
decimal digit. -/
lemma parseIntGo_mem {cs : List Char} {v : Int} (h : parseIntGo cs = some v) :
    ∀ c ∈ cs, c = '+' ∨ c = '-' ∨ c.isDigit = true := by
  intro c hc
  have hall : (parseSign cs).2.all Char.isDigit = true := by
    rw [parseIntGo] at h
    split at h
    · exact (by assumption : _ ∧ _).2
    · exact absurd h (by simp)
  rcases parseSign_cases cs with hd | ⟨c0, hsign, hd⟩
  · exact Or.inr (Or.inr (List.all_eq_true.mp hall c (by rw [hd]; exact hc)))
  · rw [hd] at hc
    rcases List.mem_cons.mp hc with hh | hm
    · rcases hsign with h1 | h1
      · exact Or.inl (hh.trans h1)
      · exact Or.inr (Or.inl (hh.trans h1))
    · exact Or.inr (Or.inr (List.all_eq_true.mp hall c hm))

/-- A parsed integer field contains no newline, no carriage return and no
space, so it survives both line splitting and field splitting intact. -/
lemma parseIntGo_clean {cs : List Char} {v : Int} (h : parseIntGo cs = some v) :
    '\n' ∉ cs ∧ '\r' ∉ cs ∧ ' ' ∉ cs := by
  refine ⟨fun hm => ?_, fun hm => ?_, fun hm => ?_⟩ <;>
    rcases parseIntGo_mem h _ hm with h1 | h1 | h1 <;> revert h1 <;> decide

/-- The value `strconv.ParseInt` returns lies in signed 64-bit range. -/
lemma parseIntGo_bounds {cs : List Char} {v : Int} (h : parseIntGo cs = some v) :
    -(2 ^ 63) ≤ v ∧ v ≤ 2 ^ 63 - 1 := by
  rw [parseIntGo] at h
  split at h
  · split at h
    · rename_i hb
      exact Option.some.inj h ▸ hb
    · exact absurd h (by simp)
  · exact absurd h (by simp)

/-- Wrapping into int64 range is the identity on values already in range. -/
lemma int64wrap_eq_self {n : Int} (h1 : -(2 ^ 63) ≤ n) (h2 : n ≤ 2 ^ 63 - 1) :
    int64wrap n = n := by
  unfold int64wrap
  rw [Int.emod_eq_of_lt (by omega) (by omega)]
  omega

/-- Dropping a trailing carriage return is the identity on lines holding
no carriage return at all. -/
lemma dropCR_eq_self {cs : List Char} (h : '\r' ∉ cs) : dropCR cs = cs := by
  unfold dropCR
  split
  · rename_i hl
    obtain ⟨hne, hx⟩ := List.mem_getLast?_eq_getLast (show '\r' ∈ cs.getLast? from hl)
    exact absurd (hx ▸ List.getLast_mem hne) h
  · rfl

/-- A separator-free string does not split. -/
lemma splitAtFirst_of_not_mem {sep : Char} {cs : List Char} (h : sep ∉ cs) :
    splitAtFirst sep cs = none := by
  induction cs with
  | nil => rfl
  | cons c t ih =>
    have hc : ¬ c = sep := fun hc => h (hc ▸ List.mem_cons_self c t)
    have ht : sep ∉ t := fun hm => h (List.mem_cons_of_mem c hm)
    simp [splitAtFirst, hc, ih ht]

/-- Splitting at the first separator cuts exactly at an explicit first
occurrence. -/
lemma splitAtFirst_append {sep : Char} {a : List Char} (b : List Char) (h : sep ∉ a) :
    splitAtFirst sep (a ++ sep :: b) = some (a, b) := by
  induction a with
  | nil => simp [splitAtFirst]
  | cons c t ih =>
    have hc : ¬ c = sep := fun hc => h (hc ▸ List.mem_cons_self c t)
    have ht : sep ∉ t := fun hm => h (List.mem_cons_of_mem c hm)
    simp [splitAtFirst, hc, ih ht]

/-- A space-free line splits into a single piece. -/
lemma splitN3_one {l : List Char} (h : ' ' ∉ l) : splitN3 l = [l] := by
  simp [splitN3, splitAtFirst_of_not_mem h]

/-- A line with exactly one space between space-free fields splits into the
two fields. -/
lemma splitN3_two {a b : List Char} (ha : ' ' ∉ a) (hb : ' ' ∉ b) :
    splitN3 (a ++ ' ' :: b) = [a, b] := by
  simp [splitN3, splitAtFirst_append b ha, splitAtFirst_of_not_mem hb]

/-- A line with two spaces after space-free fields splits into three pieces,
the remainder staying whole. -/
lemma splitN3_three {a b : List Char} (c : List Char) (ha : ' ' ∉ a) (hb : ' ' ∉ b) :
    splitN3 (a ++ ' ' :: b ++ ' ' :: c) = [a, b, c] := by
  simp [splitN3, splitAtFirst_append (b ++ ' ' :: c) ha, splitAtFirst_append c hb]

/-- Scanning a stream that opens with a newline-terminated clean line yields
that line first; the accumulator only prepends already-read text. -/
lemma scanLinesAux_append {l : List Char} (h : '\n' ∉ l) :
    ∀ (acc rest : List Char),
      scanLinesAux acc (l ++ '\n' :: rest) =
        dropCR (acc.reverse ++ l) :: scanLinesAux [] rest := by
  induction l with
  | nil => intro acc rest; simp [scanLinesAux]
  | cons c t ih =>
    intro acc rest
    have hc : ¬ c = '\n' := fun hc => h (hc ▸ List.mem_cons_self c t)
    have ht : '\n' ∉ t := fun hm => h (List.mem_cons_of_mem c hm)
    have hstep : (c :: t) ++ '\n' :: rest = c :: (t ++ '\n' :: rest) := rfl
    rw [hstep, scanLinesAux, if_neg hc, ih ht (c :: acc)]
    simp

/-- `bufio.ScanLines` peels one newline-terminated clean line off the front
of a stream. -/
lemma scanLines_cons {l : List Char} (rest : List Char) (h : '\n' ∉ l) :
    scanLines (l ++ '\n' :: rest) = dropCR l :: scanLines rest := by
  simpa [scanLines] using scanLinesAux_append h [] rest

/-- Scanning newline-joined clean lines followed by arbitrary bytes yields
exactly those lines followed by the lines of the remaining bytes. -/
lemma scanLines_joinNL_append {ls : List (List Char)} (tail : List Char)
    (h : ∀ l ∈ ls, '\n' ∉ l ∧ '\r' ∉ l) :
    scanLines (joinNL ls ++ tail) = ls ++ scanLines tail := by
  induction ls with
  | nil => simp [joinNL]
  | cons l t ih =>
    have hl := h l (List.mem_cons_self l t)
    have hstream : joinNL (l :: t) ++ tail = l ++ '\n' :: (joinNL t ++ tail) := by
      simp [joinNL]
    rw [hstream, scanLines_cons _ hl.1, dropCR_eq_self hl.2,
      ih (fun x hx => h x (List.mem_cons_of_mem l hx))]
    rfl

/-! ## Lemmas about the scan loops -/

/-- The xref scan loop returns immediately once the running total equals
the declared size, whatever lines remain. -/
lemma xrefLoop_stop {size : Int} (lines : List (List Char)) {st : XrefScanState}
    (h : size = st.total) : xrefLoop size lines st = GoResult.ok st.entries := by
  cases lines with
  | nil => rfl
  | cons l rest => simp [xrefLoop, h]

/-- Any run of lines that are not two-piece headers is skipped without
effect while the current subsection is exhausted (`pos = count`). -/
lemma xrefLoop_skip_many {size : Int} :
    ∀ (pre : List (List Char)) (rest : List (List Char)) (st : XrefScanState),
      (∀ l ∈ pre, (splitN3 l).length ≠ 2) → st.pos = st.count →
      xrefLoop size (pre ++ rest) st = xrefLoop size rest st := by
  intro pre
  induction pre with
  | nil => intro rest st _ _; rfl
  | cons l t ih =>
    intro rest st hpre hpc
    by_cases hs : size = st.total
    · rw [xrefLoop_stop ((l :: t) ++ rest) hs, xrefLoop_stop rest hs]
    · have hl := hpre l (List.mem_cons_self l t)
      have hstep : (l :: t) ++ rest = l :: (t ++ rest) := rfl
      rw [hstep, xrefLoop, if_neg hs, if_neg hl, if_pos hpc,
        ih rest st (fun x hx => hpre x (List.mem_cons_of_mem l hx)) hpc]

/-- While no line case-insensitively equals "endobj", the accumulation loop
of `readEntry` copies every line followed by a newline. -/
lemma readEntryLoop_no_endobj {ls : List (List Char)}
    (h : ∀ x ∈ ls, foldEq x kwEndobj = false) :
    readEntryLoop ls = joinNL ls := by
  induction ls with
  | nil => rfl
  | cons l t ih =>
    have hl := h l (List.mem_cons_self l t)
    rw [readEntryLoop, if_neg (by simp [hl])]
    rw [ih (fun x hx => h x (List.mem_cons_of_mem l hx))]
    simp [joinNL]

/-- The trailer scan never touches `startXref` when no line carries the
`startxref` prefix: whatever trailer it returns keeps the caller's value. -/
lemma trailerScan_startXref {lines : List (List Char)} :
    ∀ (tr tr' : Trailer),
      (∀ l ∈ lines, kwStartxref.isPrefixOf l = false) →
      trailerScan lines tr = GoResult.ok tr' → tr'.startXref = tr.startXref := by
  induction lines with
  | nil =>
    intro tr tr' _ h
    rw [trailerScan] at h
    cases h
    rfl
  | cons l t ih =>
    intro tr tr' hpre h
    have hl := hpre l (List.mem_cons_self l t)
    rw [trailerScan.eq_def] at h
    simp only [hl, Bool.false_eq_true, if_false] at h
    have ht := fun x hx => hpre x (List.mem_cons_of_mem l hx)
    cases hidx : indexOfSub kwSizeSp l with
    | none =>
      simp only [hidx] at h
      exact ih tr tr' ht h
    | some n =>
      simp only [hidx] at h
      cases hp : parseIntGo (List.drop (n + 6) l) with
      | none => simp [hp] at h
      | some v =>
        simp only [hp] at h
        by_cases hv : v = 0
        · simp [if_pos hv] at h
        · rw [if_neg hv] at h
          simpa using ih _ tr' ht h

/-! ## The rendered-table run of the xref scan loop -/

/-- A character distinct from space avoids a two-field line when it avoids
both fields. -/
lemma not_mem_field_append {c : Char} {a b : List Char} (hc : c ≠ ' ')
    (ha : c ∉ a) (hb : c ∉ b) : c ∉ a ++ ' ' :: b := by
  intro hm
  rcases List.mem_append.mp hm with hm | hm
  · exact ha hm
  · rcases List.mem_cons.mp hm with hx | hx
    · exact hc hx
    · exact hb hx

/-- Every line of a well-formed rendered table is free of newlines and
carriage returns. -/
lemma renderTable_clean {subs : List XrefSubsec} (h : wfTable subs) :
    ∀ l ∈ renderTable subs, '\n' ∉ l ∧ '\r' ∉ l := by
  intro l hl
  rw [renderTable, List.mem_flatten] at hl
  obtain ⟨ls, hls, hl⟩ := hl
  rw [List.mem_map] at hls
  obtain ⟨s, hs, rfl⟩ := hls
  obtain ⟨hfirst, hcount, _, hrows, _⟩ := h s hs
  have cf := parseIntGo_clean hfirst
  have cc := parseIntGo_clean hcount
  rw [renderSubsec] at hl
  rcases List.mem_cons.mp hl with rfl | hl
  · exact ⟨not_mem_field_append (by decide) cf.1 cc.1,
      not_mem_field_append (by decide) cf.2.1 cc.2.1⟩
  · rw [List.mem_map] at hl
    obtain ⟨r, hr, rfl⟩ := hl
    obtain ⟨ho, hg, hfn, hfr⟩ := hrows r hr
    have co := parseIntGo_clean ho
    have cg := parseIntGo_clean hg
    rw [renderRow, List.append_assoc, List.cons_append]
    exact ⟨not_mem_field_append (by decide) co.1
        (not_mem_field_append (by decide) cg.1 hfn),
      not_mem_field_append (by decide) co.2.1
        (not_mem_field_append (by decide) cg.2.1 hfr)⟩

/-- Running the scan loop over the rendered rows of the current subsection
appends exactly the specified entries and advances `pos` and `total` by the
number of rows, provided the declared count and size leave room. -/
lemma xrefLoop_rows {size : Int} :
    ∀ (rows : List XrefRow) (rest : List (List Char)) (entries : List XrefEntry)
      (offset pos count total : Int),
      (∀ r ∈ rows, wfRow r) →
      pos + (rows.length : Int) ≤ count →
      total + (rows.length : Int) ≤ size →
      -(2 ^ 63) ≤ offset → 0 ≤ pos →
      offset + pos + (rows.length : Int) ≤ 2 ^ 63 →
      xrefLoop size (rows.map renderRow ++ rest) ⟨entries, offset, pos, count, total⟩ =
        xrefLoop size rest
          ⟨entries ++ specRows offset pos rows, offset, pos + (rows.length : Int), count,
            total + (rows.length : Int)⟩ := by
  intro rows
  induction rows with
  | nil =>
    intro rest entries offset pos count total _ _ _ _ _ _
    simp [specRows]
  | cons r rs ih =>
    intro rest entries offset pos count total hwf hpc htot hofs hpos hnum
    have hlen : ((r :: rs).length : Int) = (rs.length : Int) + 1 := by
      simp [List.length_cons]
    have hr := hwf r (List.mem_cons_self r rs)
    obtain ⟨ho, hg, hfn, hfr⟩ := hr
    have hne : ¬ (size = total) := by omega
    have hppc : ¬ (pos = count) := by omega
    have hsplit : splitN3 (renderRow r) = [r.offStr, r.genStr, r.flag] := by
      rw [renderRow]
      exact splitN3_three r.flag (parseIntGo_clean ho).2.2 (parseIntGo_clean hg).2.2
    have hentry : readXrefEntry [r.offStr, r.genStr, r.flag] =
        GoResult.ok
          { byteOffset := r.offVal, number := 0, generation := r.genVal,
            inUse := (['n'] : List Char).isPrefixOf r.flag } := by
      rw [readXrefEntry]
      simp [List.get?, ho, hg]
    have hwrap : int64wrap (offset + pos) = offset + pos :=
      int64wrap_eq_self (by omega) (by omega)
    have hstep : (r :: rs).map renderRow ++ rest = renderRow r :: (rs.map renderRow ++ rest) := by
      simp
    rw [hstep, xrefLoop, if_neg hne]
    simp only [hsplit]
    rw [if_neg (by simp), if_neg hppc, hentry]
    refine Eq.trans (ih rest _ offset (pos + 1) count (total + 1)
      (fun x hx => hwf x (List.mem_cons_of_mem r hx)) (by rw [hlen] at hpc; omega)
      (by rw [hlen] at htot; omega) hofs (by omega)
      (by rw [hlen] at hnum; omega)) ?_
    congr 1
    simp only [XrefScanState.mk.injEq]
    refine ⟨?_, trivial, by rw [hlen]; omega, trivial, by rw [hlen]; omega⟩
    rw [specRows, hwrap]
    simp [List.append_assoc]

/-- Processing one rendered subsection: the header re-anchors the numbering
at the subsection's first object number, then the rows are appended. -/
lemma xrefLoop_subsec {size : Int} (s : XrefSubsec) (rest : List (List Char))
    (entries : List XrefEntry) (offset pos count total : Int)
    (hwf : wfSubsec s) (htot : total + (s.rows.length : Int) ≤ size) :
    xrefLoop size (renderSubsec s ++ rest) ⟨entries, offset, pos, count, total⟩ =
      xrefLoop size rest
        ⟨entries ++ specRows s.first 0 s.rows, s.first, (s.rows.length : Int),
          (s.rows.length : Int), total + (s.rows.length : Int)⟩ := by
  obtain ⟨hfirst, hcount, hrne, hrows, hbound⟩ := hwf
  have hlen : 1 ≤ (s.rows.length : Int) := by
    have := List.length_pos.mpr hrne
    omega
  have hne : ¬ (size = total) := by omega
  have hsplit : splitN3 (s.firstStr ++ ' ' :: s.countStr) = [s.firstStr, s.countStr] :=
    splitN3_two (parseIntGo_clean hfirst).2.2 (parseIntGo_clean hcount).2.2
  have hstep : renderSubsec s ++ rest =
      (s.firstStr ++ ' ' :: s.countStr) :: (s.rows.map renderRow ++ rest) := by
    simp [renderSubsec]
  rw [hstep, xrefLoop, if_neg hne]
  simp only [hsplit]
  rw [if_pos (by simp)]
  simp only [List.getD, List.get?, Option.getD, hfirst, hcount]
  refine Eq.trans (xrefLoop_rows s.rows rest entries s.first 0 ((s.rows.length : Int)) total
    hrows (by omega) htot (parseIntGo_bounds hfirst).1 le_rfl (by omega)) ?_
  congr 1
  simp only [XrefScanState.mk.injEq]
  exact ⟨trivial, trivial, by omega, trivial, trivial⟩

/-- Running the scan loop over a whole well-formed rendered table, with room
left by the declared size, consumes every line and returns the accumulated
entries extended by the specified entries of every subsection. -/
lemma xrefLoop_table {size : Int} :
    ∀ (subs : List XrefSubsec) (entries : List XrefEntry) (offset pos count total : Int),
      wfTable subs → total + (rowCount subs : Int) ≤ size →
      xrefLoop size (renderTable subs) ⟨entries, offset, pos, count, total⟩ =
        GoResult.ok (entries ++ specTable subs) := by
  intro subs
  induction subs with
  | nil =>
    intro entries offset pos count total _ _
    simp [renderTable, specTable, xrefLoop]
  | cons s t ih =>
    intro entries offset pos count total hwf htot
    have hrc : (rowCount (s :: t) : Int) = (s.rows.length : Int) + (rowCount t : Int) := by
      simp [rowCount]
    have hstep : renderTable (s :: t) = renderSubsec s ++ renderTable t := by
      simp [renderTable]
    have hrcnn : (0 : Int) ≤ (rowCount t : Int) := Int.ofNat_nonneg _
    rw [hstep, xrefLoop_subsec s (renderTable t) entries offset pos count total
      (hwf s (List.mem_cons_self s t)) (by rw [hrc] at htot; omega)]
    rw [ih (entries ++ specRows s.first 0 s.rows) s.first ((s.rows.length : Int))
      ((s.rows.length : Int)) (total + (s.rows.length : Int))
      (fun x hx => hwf x (List.mem_cons_of_mem s hx)) (by rw [hrc] at htot; omega)]
    have : specTable (s :: t) = specRows s.first 0 s.rows ++ specTable t := by
      simp [specTable]
    rw [this, List.append_assoc]

/-- Size bound invariant of the scan loop: while the running total has not
passed the declared size, a successful run can only grow the entry list by
the room left below the size. -/
lemma xrefLoop_length_bound {size : Int} :
    ∀ (lines : List (List Char)) (st : XrefScanState) (res : List XrefEntry),
      st.total ≤ size → xrefLoop size lines st = GoResult.ok res →
      (res.length : Int) + st.total ≤ (st.entries.length : Int) + size := by
  intro lines
  induction lines with
  | nil =>
    intro st res hle h
    rw [xrefLoop] at h
    cases h
    omega
  | cons l rest ih =>
    intro st res hle h
    rw [xrefLoop] at h
    by_cases hs : size = st.total
    · rw [if_pos hs] at h
      cases h
      omega
    · rw [if_neg hs] at h
      by_cases h2 : (splitN3 l).length = 2
      · rw [if_pos h2] at h
        split at h
        · exact absurd h (by simp)
        · split at h
          · exact absurd h (by simp)
          · rename_i x1 o ho x2 c hc
            exact ih ⟨st.entries, o, 0, c, st.total⟩ res hle h
      · rw [if_neg h2] at h
        by_cases hpc : st.pos = st.count
        · rw [if_pos hpc] at h
          exact ih st res hle h
        · rw [if_neg hpc] at h
          split at h
          · exact absurd h (by simp)
          · exact absurd h (by simp)
          · rename_i x3 xe hxe
            have hlt : st.total < size := lt_of_le_of_ne hle (Ne.symm hs)
            have hrec := ih
              ⟨st.entries ++ [{ xe with number := int64wrap (st.offset + st.pos) }],
                st.offset, st.pos + 1, st.count, st.total + 1⟩ res
              (by show st.total + 1 ≤ size; omega) h
            simp only [List.length_append, List.length_cons, List.length_nil] at hrec ⊢
            push_cast at hrec ⊢
            omega

/-! ## Claim theorems -/

/-- C1: for every classical xref table (well-formed, within the declared
size), each parsed entry's object number equals the enclosing subsection
header's first object number plus the entry's zero-based position within
that subsection — the parser returns exactly the specified entry list,
whose numbers are `first + position` by construction of `specRows`. -/
theorem c1_object_numbering (size : Int) (subs : List XrefSubsec)
    (hwf : wfTable subs) (hsz : (rowCount subs : Int) ≤ size) :
    listXrefEntries { startXref := 0, size := size, raw := [] } (renderXrefFile subs) =
      GoResult.ok (specTable subs) := by
  have hclean : ∀ l ∈ kwXref :: renderTable subs, '\n' ∉ l ∧ '\r' ∉ l := by
    intro l hl
    rcases List.mem_cons.mp hl with rfl | hl
    · exact ⟨by decide, by decide⟩
    · exact renderTable_clean hwf l hl
  have hscan : scanLines (renderXrefFile subs) = kwXref :: renderTable subs := by
    rw [renderXrefFile]
    have := scanLines_joinNL_append [] hclean
    simpa [scanLines, scanLinesAux] using this
  have hlines : linesAt (renderXrefFile subs)
      (Trailer.mk 0 size ([] : List Char)).startXref = kwXref :: renderTable subs := by
    rw [linesAt]
    simpa using hscan
  rw [listXrefEntries, hlines]
  show (if kwXref = kwXref then xrefLoop size (renderTable subs) initScanState
      else GoResult.err PdfError.shouldBeXref) = GoResult.ok (specTable subs)
  rw [if_pos rfl]
  have := xrefLoop_table subs [] 0 0 0 0 hwf (by simpa using hsz)
  simpa [initScanState] using this

/-- C1 witness: the specification's own two-subsection example, `0 1` then
`3 2`, yields object numbers 0, 3, 4 in that order. -/
theorem c1_witness :
    listXrefEntries { startXref := 0, size := 3, raw := [] } (renderXrefFile subsTwo) =
        GoResult.ok (specTable subsTwo) ∧
      (specTable subsTwo).map XrefEntry.number = [0, 3, 4] :=
  ⟨c1_object_numbering 3 subsTwo (by decide) (by decide), by decide⟩

/-- C2: an entry whose byte offset points at the bytes
"5 0 obj\n<< /Type /Catalog >>\nendobj\n" extracts exactly those bytes,
each line re-terminated with a single newline, whatever follows them; and
an entry whose first line does not end in "obj" yields the fatal error
"should start with a reference object" with no bytes copied. -/
theorem c2_extract_catalog :
    (∀ (ent : XrefEntry) (file tail : List Char),
        0 ≤ ent.byteOffset →
        file.drop ent.byteOffset.toNat = catalogObj ++ tail →
        readEntry ent file = GoResult.ok catalogObj) ∧
      (∀ (ent : XrefEntry) (file : List Char),
        kwObj.isSuffixOf ((linesAt file ent.byteOffset).headD []) = false →
        readEntry ent file = GoResult.err PdfError.notRefObject) ∧
      goMessage PdfError.notRefObject = "should start with a reference object" := by
  refine ⟨?_, ?_, rfl⟩
  · intro ent file tail hnn hdrop
    have hlines : linesAt file ent.byteOffset =
        ("5 0 obj").data :: ("<< /Type /Catalog >>").data :: kwEndobj :: scanLines tail := by
      rw [linesAt, if_neg (by omega), hdrop]
      have hshape : catalogObj ++ tail =
          ("5 0 obj").data ++ '\n' ::
            (("<< /Type /Catalog >>").data ++ '\n' :: (kwEndobj ++ '\n' :: tail)) := rfl
      rw [hshape, scanLines_cons _ (by decide), scanLines_cons _ (by decide),
        scanLines_cons _ (by decide)]
      rfl
    rw [readEntry, hlines]
    show (if kwObj.isSuffixOf (("5 0 obj").data) then
        GoResult.ok (("5 0 obj").data ++ '\n' ::
          readEntryLoop (("<< /Type /Catalog >>").data :: kwEndobj :: scanLines tail))
      else GoResult.err PdfError.notRefObject) = GoResult.ok catalogObj
    rw [if_pos (by decide), readEntryLoop, if_neg (by decide), readEntryLoop,
      if_pos (by decide)]
    rfl
  · intro ent file hsuf
    cases hl : linesAt file ent.byteOffset with
    | nil => rw [readEntry, hl]
    | cons l rest =>
      rw [hl] at hsuf
      simp only [List.headD] at hsuf
      rw [readEntry, hl]
      show (if kwObj.isSuffixOf l then GoResult.ok (l ++ '\n' :: readEntryLoop rest)
        else GoResult.err PdfError.notRefObject) = GoResult.err PdfError.notRefObject
      rw [hsuf]
      rfl

/-- C2 witness: extraction at offset 0 of a file holding the catalog object
followed by further bytes returns exactly the object bytes, and extraction
from a file whose first line is "hello" fails with the extraction error. -/
theorem c2_witness :
    readEntry ⟨0, 5, 0, true⟩ (catalogObj ++ ("GARBAGE").data) = GoResult.ok catalogObj ∧
      readEntry ⟨0, 5, 0, true⟩ (("hello\nworld\n").data) =
        GoResult.err PdfError.notRefObject :=
  ⟨c2_extract_catalog.1 ⟨0, 5, 0, true⟩ (catalogObj ++ ("GARBAGE").data) (("GARBAGE").data)
      (by decide) rfl,
    c2_extract_catalog.2.1 ⟨0, 5, 0, true⟩ (("hello\nworld\n").data) (by decide)⟩

/-- C3 counterexample: on a 27-byte file, readTrailer does not read the
whole file as the tail block; the single ReadAt sits at the negative offset
27 − 1024, which the file rejects, and readTrailer propagates the error
instead of completing without error. -/
theorem c3_counterexample :
    readTrailer smallPdf ((smallPdf.length : Int)) = GoResult.err PdfError.negOffset := by
  decide

/-- C3 amended: for every file shorter than 1024 bytes, readTrailer fails
with the negative-offset read error — a short file is an error condition,
since the tail read is issued at file_size − 1024 and only io.EOF is
tolerated. -/
theorem c3_short_file_fails (file : List Char) (size : Int) (h : size < 1024) :
    readTrailer file size = GoResult.err PdfError.negOffset := by
  rw [readTrailer, if_pos (by omega)]

/-- C3 witness: the empty file (size 0) is shorter than 1024 bytes and
readTrailer fails on it with the negative-offset error. -/
theorem c3_witness :
    ((0 : Int) < 1024) ∧ readTrailer [] 0 = GoResult.err PdfError.negOffset :=
  ⟨by decide, c3_short_file_fails [] 0 (by decide)⟩

/-- C4 counterexample: on the table "xref\n0 1\n123\n" with one open
subsection, the line "123" splits into a single piece, its text parses as
an integer, and ListXrefEntries indexes entry[1] out of range: a panic, not
a reported parse error. -/
theorem c4_counterexample :
    listXrefEntries { startXref := 0, size := 5, raw := [] } fileOnePiece =
      GoResult.panics := by
  decide

/-- C4 amended: a line splitting into one piece (no space) is silently
skipped when the current subsection is exhausted; inside an open subsection
it yields the fatal offset parse error only when its text fails integer
parsing, and an index-out-of-range panic when the text parses. -/
theorem c4_one_piece_line (size : Int) (l : List Char) (rest : List (List Char))
    (st : XrefScanState) (hsp : ' ' ∉ l) (hne : size ≠ st.total) :
    xrefLoop size (l :: rest) st =
      if st.pos = st.count then xrefLoop size rest st
      else
        match parseIntGo l with
        | none => GoResult.err PdfError.xrefEntryOffset
        | some _ => GoResult.panics := by
  rw [xrefLoop, if_neg (fun hh => hne hh), splitN3_one hsp]
  rw [if_neg (by simp)]
  by_cases hpc : st.pos = st.count
  · rw [if_pos hpc, if_pos hpc]
  · rw [if_neg hpc, if_neg hpc]
    cases hp : parseIntGo l with
    | none => simp [readXrefEntry, List.get?, hp]
    | some v => simp [readXrefEntry, List.get?, hp]

/-- C4 witness: inside an open subsection (count 1, position 0), the
one-piece line "123" makes the scan loop panic. -/
theorem c4_witness :
    xrefLoop 5 [("123").data] ⟨[], 0, 0, 1, 0⟩ = GoResult.panics := by
  rw [c4_one_piece_line 5 (("123").data) [] ⟨[], 0, 0, 1, 0⟩ (by decide) (by decide)]
  decide

/-- Prefix search skips a run of leading spaces when the pattern starts
with a non-space character and matches right after the run. -/
lemma indexOfSub_replicate_space {c0 : Char} {patT : List Char} (hc : c0 ≠ ' ') :
    ∀ (n : Nat) (rest : List Char), (c0 :: patT).isPrefixOf rest = true →
      indexOfSub (c0 :: patT) (List.replicate n ' ' ++ rest) = some n := by
  intro n
  induction n with
  | zero =>
    intro rest hpre
    cases rest with
    | nil => simp [List.isPrefixOf] at hpre
    | cons r t => rw [List.replicate_zero, List.nil_append, indexOfSub, if_pos hpre]
  | succ m ih =>
    intro rest hpre
    have hstep : List.replicate (m + 1) ' ' ++ rest = ' ' :: (List.replicate m ' ' ++ rest) := by
      simp [List.replicate_succ]
    have hnp : (c0 :: patT).isPrefixOf (' ' :: (List.replicate m ' ' ++ rest)) = false := by
      simp [List.isPrefixOf, hc]
    rw [hstep, indexOfSub, hnp]
    simp [ih rest hpre]

/-- A file of exactly 1024 bytes made of a space run followed by a block
that starts with the trailer keyword: readTrailer reads the whole file in
one tail read, trims the leading spaces at the keyword, and scans the
block. -/
lemma readTrailer_padded (k : Nat) (restS : List Char) (hk : 0 < k)
    (hlen : k + restS.length = 1024)
    (hpre : kwTrailer.isPrefixOf restS = true) :
    readTrailer (List.replicate k ' ' ++ restS) 1024 =
      trailerScan (scanLines restS) { startXref := 0, size := 0, raw := restS } := by
  have hfull : (List.replicate k ' ' ++ restS).length = 1024 := by simpa using hlen
  have hdrop0 : ((1024 : Int) - 1024).toNat = 0 := by norm_num
  have htake : (List.replicate k ' ' ++ restS).take 1024 = List.replicate k ' ' ++ restS := by
    rw [← hfull, List.take_length]
  have hfind : findTrailerInBlock (List.replicate k ' ' ++ restS) = (k : Int) := by
    have hkw : kwTrailer = 't' :: ("railer").data := rfl
    rw [hkw] at hpre
    rw [findTrailerInBlock, hkw, indexOfSub_replicate_space (by decide) k restS hpre]
  have hcut : (List.replicate k ' ' ++ restS).drop ((k : Int)).toNat = restS := by
    have hk2 : ((k : Int)).toNat = (List.replicate k ' ' : List Char).length := by simp
    rw [hk2, List.drop_left]
  rw [readTrailer, if_neg (by norm_num)]
  simp only [hdrop0, List.drop_zero, htake, hfull, Nat.sub_self, List.replicate_zero,
    List.append_nil, hfind, hcut]
  rw [if_pos (show ((k : Int)) > 0 from by exact_mod_cast hk)]

/-- When the first scanned line of the file at a zero start offset is not
the keyword "xref", ListXrefEntries fails with "should be xref". -/
lemma listXrefEntries_first_line_ne (t : Trailer) (file : List Char) (l : List Char)
    (rest : List (List Char)) (h0 : t.startXref = 0) (hsc : scanLines file = l :: rest)
    (hne : l ≠ kwXref) : listXrefEntries t file = GoResult.err PdfError.shouldBeXref := by
  have hlines : linesAt file t.startXref = l :: rest := by
    rw [h0, linesAt, if_neg (by decide)]
    simpa using hsc
  rw [listXrefEntries, hlines]
  show (if l = kwXref then xrefLoop t.size rest initScanState
    else GoResult.err PdfError.shouldBeXref) = GoResult.err PdfError.shouldBeXref
  rw [if_neg hne]

/-- When the first scanned line of the file at a zero start offset is
exactly "xref", ListXrefEntries is the scan loop on the remaining lines. -/
lemma listXrefEntries_cons_xref (t : Trailer) (file : List Char)
    (rest : List (List Char)) (h0 : t.startXref = 0)
    (hsc : scanLines file = kwXref :: rest) :
    listXrefEntries t file = xrefLoop t.size rest initScanState := by
  have hlines : linesAt file t.startXref = kwXref :: rest := by
    rw [h0, linesAt, if_neg (by decide)]
    simpa using hsc
  rw [listXrefEntries, hlines]
  show (if kwXref = kwXref then xrefLoop t.size rest initScanState
    else GoResult.err PdfError.shouldBeXref) = xrefLoop t.size rest initScanState
  rw [if_pos rfl]

/-- The concrete 1024-byte files above decompose as a space run followed by
their small trailer block. -/
lemma fileNoStartxref_eq :
    fileNoStartxref = List.replicate 1008 ' ' ++ ("trailer\n/Size 5\n").data := rfl

/-- C5 counterexample: a 1024-byte file whose trailer block has a /Size
line but no startxref line parses without error — readTrailer returns
success with start_xref left at 0, so the absence of startxref is not a
parse failure of readTrailer. -/
theorem c5_counterexample :
    readTrailer fileNoStartxref 1024 =
      GoResult.ok { startXref := 0, size := 5, raw := ("trailer\n/Size 5\n").data } := by
  rw [fileNoStartxref_eq,
    readTrailer_padded 1008 (("trailer\n/Size 5\n").data) (by decide) (by decide) (by decide)]
  decide

/-- C5 amended: readTrailer itself never fails for a missing startxref
line — the scan leaves start_xref at the caller's (zero) value whenever no
line carries the startxref prefix — and the failure only surfaces
downstream, where ListXrefEntries at offset 0 rejects a file that does not
begin with an "xref" line. -/
theorem c5_missing_startxref :
    (∀ (lines : List (List Char)) (tr tr' : Trailer),
        (∀ l ∈ lines, kwStartxref.isPrefixOf l = false) →
        trailerScan lines tr = GoResult.ok tr' → tr'.startXref = tr.startXref) ∧
      listXrefEntries { startXref := 0, size := 5, raw := ("trailer\n/Size 5\n").data }
          fileNoStartxref = GoResult.err PdfError.shouldBeXref := by
  refine ⟨fun _ tr tr' h1 h2 => trailerScan_startXref tr tr' h1 h2, ?_⟩
  have hshape : fileNoStartxref =
      (List.replicate 1008 ' ' ++ ("trailer").data) ++ '\n' :: ("/Size 5\n").data := by
    rw [fileNoStartxref_eq, List.append_assoc]
    rfl
  have hnl : '\n' ∉ List.replicate 1008 ' ' ++ ("trailer").data := by
    intro hm
    rcases List.mem_append.mp hm with hm | hm
    · exact absurd (List.eq_of_mem_replicate hm) (by decide)
    · revert hm
      decide
  have hsc : scanLines fileNoStartxref =
      (List.replicate 1008 ' ' ++ ("trailer").data) :: scanLines (("/Size 5\n").data) := by
    rw [hshape, scanLines_cons _ hnl, dropCR_eq_self]
    intro hm
    rcases List.mem_append.mp hm with hm | hm
    · exact absurd (List.eq_of_mem_replicate hm) (by decide)
    · revert hm
      decide
  refine listXrefEntries_first_line_ne _ _ _ _ rfl hsc ?_
  intro heq
  have h0 : (List.replicate 1008 ' ' ++ ("trailer").data).head? = kwXref.head? :=
    congrArg List.head? heq
  rw [show (1008 : Nat) = 1007 + 1 from rfl, List.replicate_succ, List.cons_append,
    List.head?_cons] at h0
  exact absurd h0 (by decide)

/-- C5 witness: on the startxref-free line pair "trailer", "/Size 5", the
trailer scan succeeds and keeps the zero start_xref it began with. -/
theorem c5_witness :
    (∀ l ∈ [kwTrailer, ("/Size 5").data], kwStartxref.isPrefixOf l = false) ∧
      (Trailer.mk 0 5 []).startXref = (Trailer.mk 0 0 []).startXref :=
  ⟨by decide,
    c5_missing_startxref.1 [kwTrailer, ("/Size 5").data] (Trailer.mk 0 0 [])
      (Trailer.mk 0 5 []) (by decide) (by decide)⟩

/-- C6: on any trailer line containing "/Size " (and not consumed by the
startxref branch), the text from just after that substring to the end of
the line is parsed as a base-10 integer and stored as size; concretely,
through readTrailer, "/Size 37" yields size 37 while "/Size 0" and
"/Size abc" each yield the fatal parse error. -/
theorem c6_size_parsing :
    (∀ (l : List Char) (rest : List (List Char)) (tr : Trailer) (n : Nat) (v : Int),
        kwStartxref.isPrefixOf l = false →
        indexOfSub kwSizeSp l = some n →
        parseIntGo (l.drop (n + 6)) = some v → v ≠ 0 →
        trailerScan (l :: rest) tr = trailerScan rest { tr with size := v }) ∧
      readTrailer fileSize37 1024 =
          GoResult.ok { startXref := 0, size := 37, raw := ("trailer\n/Size 37\n").data } ∧
      readTrailer fileSize0 1024 = GoResult.err PdfError.parseSize ∧
      readTrailer fileSizeAbc 1024 = GoResult.err PdfError.parseSize := by
  refine ⟨?_, ?_, ?_, ?_⟩
  · intro l rest tr n v h1 h2 h3 h4
    rw [trailerScan.eq_def]
    simp [h1, h2, h3, h4]
  · rw [show fileSize37 = List.replicate 1007 ' ' ++ ("trailer\n/Size 37\n").data from rfl,
      readTrailer_padded 1007 (("trailer\n/Size 37\n").data) (by decide) (by decide)
        (by decide)]
    decide
  · rw [show fileSize0 = List.replicate 1008 ' ' ++ ("trailer\n/Size 0\n").data from rfl,
      readTrailer_padded 1008 (("trailer\n/Size 0\n").data) (by decide) (by decide)
        (by decide)]
    decide
  · rw [show fileSizeAbc = List.replicate 1006 ' ' ++ ("trailer\n/Size abc\n").data from rfl,
      readTrailer_padded 1006 (("trailer\n/Size abc\n").data) (by decide) (by decide)
        (by decide)]
    decide

/-- C6 witness: the single line "/Size 37" has the substring at index 0,
its tail "37" parses to the nonzero 37, and the scan stores size 37. -/
theorem c6_witness :
    trailerScan [("/Size 37").data] (Trailer.mk 0 0 []) =
      GoResult.ok (Trailer.mk 0 37 []) := by
  rw [c6_size_parsing.1 (("/Size 37").data) [] (Trailer.mk 0 0 []) 0 37 (by decide)
    (by decide) (by decide) (by decide)]
  rfl

/-- C7: findXrefEntry returns the first entry in list order whose object
number and generation both match exactly — it agrees with List.find? on
that predicate — and a miss is the "no entry found" error, with no panic
or undefined value possible. -/
theorem c7_lookup_first_match :
    (∀ (entries : List XrefEntry) (number generation : Int),
        findXrefEntry entries number generation =
          match entries.find?
              (fun e => e.number == number && e.generation == generation) with
          | some e => GoResult.ok e
          | none => GoResult.err PdfError.noEntryFound) ∧
      goMessage PdfError.noEntryFound = "no entry found" := by
  refine ⟨?_, rfl⟩
  intro entries number generation
  induction entries with
  | nil => rfl
  | cons e rest ih =>
    rw [findXrefEntry]
    by_cases h : e.number = number ∧ e.generation = generation
    · rw [if_pos h, List.find?_cons_of_pos _ (by simp [h.1, h.2])]
    · rw [if_neg h, ih, List.find?_cons_of_neg _ (by simpa using h)]

/-- C8 counterexample: ListXrefEntries called with a trailer whose size
parsed to -1 (which readTrailer accepts, rejecting only zero) returns one
entry, and one exceeds the size: the at-most-size bound fails as stated. -/
theorem c8_counterexample :
    listXrefEntries { startXref := 0, size := -1, raw := [] } fileOneEntry =
        GoResult.ok [{ byteOffset := 17, number := 0, generation := 0, inUse := true }] ∧
      ¬ ((1 : Int) ≤ -1) :=
  ⟨by decide, by decide⟩

/-- C8 amended: the scan loop stops the moment the running total equals the
trailer size; whenever the size is nonnegative, a successful parse returns
at most size entries; and on a classical tail the scan halts on the line
right after the table, before the trailing trailer keyword. -/
theorem c8_stops_at_size :
    (∀ (size : Int) (l : List Char) (rest : List (List Char)) (st : XrefScanState),
        size = st.total → xrefLoop size (l :: rest) st = GoResult.ok st.entries) ∧
      (∀ (t : Trailer) (file : List Char) (res : List XrefEntry),
        0 ≤ t.size → listXrefEntries t file = GoResult.ok res →
        (res.length : Int) ≤ t.size) ∧
      listXrefEntries { startXref := 0, size := 3, raw := [] } fileThenTrailer =
        GoResult.ok
          [{ byteOffset := 9, number := 0, generation := 0, inUse := true },
           { byteOffset := 50, number := 1, generation := 0, inUse := true },
           { byteOffset := 100, number := 2, generation := 0, inUse := true }] := by
  refine ⟨?_, ?_, by decide⟩
  · intro size l rest st h
    exact xrefLoop_stop (l :: rest) h
  · intro t file res h0 h
    rw [listXrefEntries] at h
    split at h
    · exact absurd h (by simp)
    · split at h
      · have hb := xrefLoop_length_bound _ initScanState res
          (show (0 : Int) ≤ t.size from h0) h
        simpa [initScanState] using hb
      · exact absurd h (by simp)

/-- C8 witness: with size 3 and a one-entry table the parse succeeds with
one entry, and one is at most three. -/
theorem c8_witness :
    ((0 : Int) ≤ 3) ∧
      ((([{ byteOffset := 17, number := 0, generation := 0, inUse := true }] :
        List XrefEntry).length : Int) ≤ 3) :=
  ⟨by decide,
    c8_stops_at_size.2.1 { startXref := 0, size := 3, raw := [] } fileOneEntry
      [{ byteOffset := 17, number := 0, generation := 0, inUse := true }]
      (by decide) (by decide)⟩

/-- C9: when the first line at the entry's offset ends in "obj" and the
stream ends before any line case-insensitively equal to "endobj", readEntry
returns the accumulated bytes without error — every line, the truncated
last one included, re-terminated with a single newline. -/
theorem c9_truncated_ok (ent : XrefEntry) (file : List Char) (l : List Char)
    (rest : List (List Char)) (hl : linesAt file ent.byteOffset = l :: rest)
    (hobj : kwObj.isSuffixOf l = true)
    (hend : ∀ x ∈ rest, foldEq x kwEndobj = false) :
    readEntry ent file = GoResult.ok (joinNL (l :: rest)) := by
  rw [readEntry, hl]
  show (if kwObj.isSuffixOf l then GoResult.ok (l ++ '\n' :: readEntryLoop rest)
    else GoResult.err PdfError.notRefObject) = GoResult.ok (joinNL (l :: rest))
  rw [if_pos (by rw [hobj]), readEntryLoop_no_endobj hend]
  simp [joinNL]

/-- C9 witness: a stream holding "5 0 obj" and then the truncated line
"<< truncated" with no endobj still extracts successfully. -/
theorem c9_witness :
    readEntry ⟨0, 0, 0, true⟩ truncObjFile =
      GoResult.ok (joinNL [("5 0 obj").data, ("<< truncated").data]) :=
  c9_truncated_ok ⟨0, 0, 0, true⟩ truncObjFile (("5 0 obj").data) [("<< truncated").data]
    (by decide) (by decide) (by decide)

/-- C10: well-formed three-field entry lines sitting between the xref line
and the first subsection header are silently skipped: the parse of the file
with them inserted equals the parse of the file without them — no entries,
no running-total advance, no error. -/
theorem c10_preheader_lines_skipped (t : Trailer) (pre : List (List Char)) (tail : List Char)
    (h0 : t.startXref = 0)
    (hpre : ∀ l ∈ pre, (splitN3 l).length = 3 ∧ '\n' ∉ l ∧ '\r' ∉ l) :
    listXrefEntries t (kwXref ++ '\n' :: (joinNL pre ++ tail)) =
      listXrefEntries t (kwXref ++ '\n' :: tail) := by
  have hx : '\n' ∉ kwXref := by decide
  have hscan1 : scanLines (kwXref ++ '\n' :: (joinNL pre ++ tail)) =
      kwXref :: (pre ++ scanLines tail) := by
    rw [scanLines_cons _ hx, dropCR_eq_self (by decide),
      scanLines_joinNL_append tail (fun l hl => (hpre l hl).2)]
  have hscan2 : scanLines (kwXref ++ '\n' :: tail) = kwXref :: scanLines tail := by
    rw [scanLines_cons _ hx, dropCR_eq_self (by decide)]
  rw [listXrefEntries_cons_xref t _ (pre ++ scanLines tail) h0 hscan1,
    listXrefEntries_cons_xref t _ (scanLines tail) h0 hscan2]
  exact xrefLoop_skip_many pre (scanLines tail) initScanState
    (fun l hl => by simp [(hpre l hl).1]) rfl

/-- C10 witness: a stray well-formed entry line before the first header
leaves the parse of a one-entry table unchanged. -/
theorem c10_witness :
    listXrefEntries (Trailer.mk 0 1 [])
        (kwXref ++ '\n' :: (joinNL [("0000000111 00000 n").data] ++
          ("0 1\n0000000009 00000 n\n").data)) =
      listXrefEntries (Trailer.mk 0 1 []) (kwXref ++ '\n' ::
        ("0 1\n0000000009 00000 n\n").data) :=
  c10_preheader_lines_skipped (Trailer.mk 0 1 []) [("0000000111 00000 n").data]
    (("0 1\n0000000009 00000 n\n").data) rfl (by decide)
